import Mathlib

/-!
Shallow embedding of `src/lib/redux/applyMiddleware.ts`.

The TypeScript source enhances a store constructor: it builds the base
store, initialises a local `dispatch` variable with a guard function that
throws, builds a middleware API whose `dispatch` forwards through that
mutable local variable (an indirection cell), runs every middleware
constructor on that API (`middlewares.map`), composes the resulting chain
around the base dispatch (`compose(...chain)(store.dispatch)`), repoints
the cell, and returns the store with only `dispatch` replaced.

Modelling choices:
* machine state `St` carries the store state, an observation log (the
  shared array a test middleware appends to), and the indirection cell;
* the indirection cell is defunctionalised: `none` stands for the guard
  function, `some hs` for the composed chain over the instantiated
  handlers `hs` (composition is pure, so recomposing at each call is
  observationally identical to storing the composed closure);
* caller-supplied middleware code is represented syntactically by the
  `CProg`/`HProg` program types (state reads, api dispatch, calls to
  `next`, log writes, throwing, try/catch), interpreted by `runC`/`runH`;
* re-entrant dispatch through the api view is interpreted with explicit
  fuel (`apiD`); an infinite self-dispatch loop, which in JS never
  terminates, exhausts the fuel;
* errors thrown by JS code are `Except.error`; mutations performed before
  a throw survive it, so the monad threads the state on the error path too.
-/

namespace Redux

/-- Errors observable in the model: the guard error thrown when dispatch is
called while the cell is unbound (lines 63-68 of the source), an error
thrown by middleware code, and fuel exhaustion standing for divergence of
unbounded re-entrant dispatch. -/
inductive Err : Type where
  | guard : Err
  | mwErr : String → Err
  | fuel : Err
deriving DecidableEq, Repr

/-- Programs a middleware handler (the `action => ...` function obtained
from `next => action => ...`) may run: caller-supplied code, modelled
syntactically so it can be stored in the indirection cell as data. -/
inductive HProg (σ α ρ : Type) : Type → Type 1 where
  | pure {β : Type} : β → HProg σ α ρ β
  | bind {β γ : Type} : HProg σ α ρ β → (β → HProg σ α ρ γ) → HProg σ α ρ γ
  | getSt : HProg σ α ρ σ
  | disp : α → HProg σ α ρ ρ
  | next : α → HProg σ α ρ ρ
  | log : String → HProg σ α ρ Unit
  | fail {β : Type} : String → HProg σ α ρ β
  | tryCatch {β : Type} : HProg σ α ρ β → (Err → HProg σ α ρ β) → HProg σ α ρ β

/-- Programs a middleware constructor (the body run when the middleware is
applied to the api view) may run. Identical to `HProg` except that no
`next` handler is in scope during construction. -/
inductive CProg (σ α ρ : Type) : Type → Type 1 where
  | pure {β : Type} : β → CProg σ α ρ β
  | bind {β γ : Type} : CProg σ α ρ β → (β → CProg σ α ρ γ) → CProg σ α ρ γ
  | getSt : CProg σ α ρ σ
  | disp : α → CProg σ α ρ ρ
  | log : String → CProg σ α ρ Unit
  | fail {β : Type} : String → CProg σ α ρ β
  | tryCatch {β : Type} : CProg σ α ρ β → (Err → CProg σ α ρ β) → CProg σ α ρ β

/-- A middleware as supplied by the caller: a constructor body (run with
the api view) returning a value of type `B`, and the handler the
constructor returns, which may depend on that value. -/
structure Mw (σ α ρ : Type) : Type 1 where
  B : Type
  ctor : CProg σ α ρ B
  handler : B → α → HProg σ α ρ ρ

/-- Machine state: the base container state, the shared observation log,
and the dispatch indirection cell (`none` = guard, `some hs` = composed
chain over the instantiated handlers `hs`). -/
structure St (σ α ρ : Type) : Type 1 where
  state : σ
  log : List String
  cell : Option (List (α → HProg σ α ρ ρ))

/-- The effect monad: state passing with errors, keeping the state on the
error path (JS mutations before a throw survive the throw). -/
def M (σ α ρ : Type) (β : Type u) : Type (max u 1) :=
  St σ α ρ → Except Err β × St σ α ρ

/-- Return a value, leaving the state unchanged. -/
def mret {σ α ρ : Type} {β : Type u} (b : β) : M σ α ρ β :=
  fun s => (Except.ok b, s)

/-- Sequence two computations; an error in the first aborts the second,
keeping the state reached so far. -/
def mbind {σ α ρ : Type} {β : Type u} {γ : Type v}
    (m : M σ α ρ β) (f : β → M σ α ρ γ) : M σ α ρ γ :=
  fun s =>
    match m s with
    | (Except.ok b, s1) => f b s1
    | (Except.error e, s1) => (Except.error e, s1)

/-- Run a computation, handing any error to the handler (JS try/catch);
the state reached at the throw is the state the handler starts from. -/
def mcatch {σ α ρ : Type} {β : Type u}
    (m : M σ α ρ β) (h : Err → M σ α ρ β) : M σ α ρ β :=
  fun s =>
    match m s with
    | (Except.ok b, s1) => (Except.ok b, s1)
    | (Except.error e, s1) => h e s1

/-- Append one entry to the shared observation log. -/
def mlog {σ α ρ : Type} (m : String) : M σ α ρ Unit :=
  fun s => (Except.ok (), { s with log := s.log ++ [m] })

/-- Throw an error, keeping the state. -/
def mthrow {σ α ρ : Type} {β : Type u} (e : Err) : M σ α ρ β :=
  fun s => (Except.error e, s)

/-- The restricted API view handed to middleware constructors
(`middlewareAPI` in the source, lines 70-73). -/
structure MwAPI (σ α ρ : Type) : Type 1 where
  getState : M σ α ρ σ
  dispatch : α → M σ α ρ ρ

/-- A container: `getState` and `dispatch`, the two fields of the store
that the enhancer reads and (for `dispatch`) replaces. -/
structure Store (σ α ρ : Type) : Type 1 where
  getState : M σ α ρ σ
  dispatch : α → M σ α ρ ρ

/-- Interpreter for handler programs, given the api view (for `getSt` and
`disp`) and the `next` function received from the composer. -/
def runH {σ α ρ : Type} (api : MwAPI σ α ρ) (nx : α → M σ α ρ ρ) :
    {β : Type} → HProg σ α ρ β → M σ α ρ β
  | _, HProg.pure b => mret b
  | _, HProg.bind p f => mbind (runH api nx p) (fun b => runH api nx (f b))
  | _, HProg.getSt => api.getState
  | _, HProg.disp a => api.dispatch a
  | _, HProg.next a => nx a
  | _, HProg.log m => mlog m
  | _, HProg.fail m => mthrow (Err.mwErr m)
  | _, HProg.tryCatch p h => mcatch (runH api nx p) (fun e => runH api nx (h e))

/-- Interpreter for constructor programs, given the api view. -/
def runC {σ α ρ : Type} (api : MwAPI σ α ρ) :
    {β : Type} → CProg σ α ρ β → M σ α ρ β
  | _, CProg.pure b => mret b
  | _, CProg.bind p f => mbind (runC api p) (fun b => runC api (f b))
  | _, CProg.getSt => api.getState
  | _, CProg.disp a => api.dispatch a
  | _, CProg.log m => mlog m
  | _, CProg.fail m => mthrow (Err.mwErr m)
  | _, CProg.tryCatch p h => mcatch (runC api p) (fun e => runC api (h e))

/-- Modelled from the spec: the pipeline composer. `src/lib/redux/compose.ts`
is imported by `applyMiddleware.ts` but the file is not among the sources;
the spec (section 4.2) fixes its behaviour: zero functions compose to the
identity, otherwise `compose [f1, ..., fn] x = f1 (f2 (... (fn x)))`, the
head outermost. -/
def compose {T : Type u} : List (T → T) → T → T
  | [] => fun x => x
  | f :: fs => fun x => f (compose fs x)

/-- The unary transform `next => action => ...` denoted by one instantiated
handler: interpret its body with the given api view and `next`. -/
def toTransform {σ α ρ : Type} (api : MwAPI σ α ρ) (h : α → HProg σ α ρ ρ) :
    (α → M σ α ρ ρ) → α → M σ α ρ ρ :=
  fun nx a => runH api nx (h a)

/-- The dispatch of the api view: the source closure
`(action, ...args) => dispatch(action, ...args)` (line 72), which reads the
indirection cell at call time. `none` resolves to the guard (lines 63-68);
`some hs` resolves to the chain installed at line 87, i.e.
`compose(...chain)(store.dispatch)`. The fuel bounds re-entrant depth. -/
def apiD {σ α ρ : Type} (g : M σ α ρ σ) (d : α → M σ α ρ ρ) :
    Nat → α → M σ α ρ ρ
  | 0 => fun _ s =>
      match s.cell with
      | none => (Except.error Err.guard, s)
      | some _ => (Except.error Err.fuel, s)
  | n + 1 => fun a s =>
      match s.cell with
      | none => (Except.error Err.guard, s)
      | some hs => compose (hs.map (toTransform ⟨g, apiD g d n⟩)) d a s

/-- The `middlewareAPI` object of the source (lines 70-73): `getState` is
the one of the store, `dispatch` forwards through the indirection cell. -/
def mkAPI {σ α ρ : Type} (store : Store σ α ρ) (fuel : Nat) : MwAPI σ α ρ :=
  ⟨store.getState, apiD store.getState store.dispatch fuel⟩

/-- `const chain = middlewares.map((middleware) => middleware(middlewareAPI))`
(line 76): run each constructor in order on the one api view, collecting
the instantiated handlers; a thrown error aborts the traversal. -/
def runChain {σ α ρ : Type} (api : MwAPI σ α ρ) :
    List (Mw σ α ρ) → M σ α ρ (List (α → HProg σ α ρ ρ))
  | [] => mret []
  | mw :: rest =>
      mbind (runC api mw.ctor) fun b =>
      mbind (runChain api rest) fun hs =>
      mret (mw.handler b :: hs)

/-- The enhanced store constructor body (lines 62-92 of the source), with
the base store already built: set the cell to the guard, run the chain of
constructors, compose the chain around the base dispatch, repoint the cell,
and return the store with only `dispatch` replaced. -/
def applyMiddleware {σ α ρ : Type} (fuel : Nat) (mws : List (Mw σ α ρ))
    (store : Store σ α ρ) : M σ α ρ (Store σ α ρ) :=
  fun s =>
    match runChain (mkAPI store fuel) mws { s with cell := none } with
    | (Except.error e, s1) => (Except.error e, s1)
    | (Except.ok hs, s1) =>
        (Except.ok { store with
            dispatch := compose (hs.map (toTransform (mkAPI store fuel))) store.dispatch },
         { s1 with cell := some hs })

/-- Construct the enhanced store and immediately dispatch one action
through it (error of either step propagates). -/
def runEnhanced {σ α ρ : Type} (fuel : Nat) (mws : List (Mw σ α ρ))
    (store : Store σ α ρ) (a : α) : M σ α ρ ρ :=
  fun s =>
    match applyMiddleware fuel mws store s with
    | (Except.error e, s1) => (Except.error e, s1)
    | (Except.ok en, s1) => en.dispatch a s1

/-- Modelled from the spec: the base container built by the `createStore`
collaborator (section 6; `createStore` is an argument of the enhancer and
its definition is not among the sources): `getState` reads the current
state without side effects, `dispatch` applies the transition function
synchronously and returns the action itself. -/
def createStore {σ α : Type} (red : σ → α → σ) : Store σ α α where
  getState := fun s => (Except.ok s.state, s)
  dispatch := fun a s => (Except.ok a, { s with state := red s.state a })

/-- A tracing middleware: trivial constructor; its handler logs `pre`,
calls `next` on the action, logs `post`, and returns the `next` result. -/
def mwTrace {σ α ρ : Type} (pre post : String) : Mw σ α ρ where
  B := Unit
  ctor := CProg.pure ()
  handler := fun _ a =>
    HProg.bind (HProg.log pre) fun _ =>
    HProg.bind (HProg.next a) fun r =>
    HProg.bind (HProg.log post) fun _ =>
    HProg.pure r

/-- A counting middleware: its constructor logs `label` (so construction
order and multiplicity are observable); its handler just forwards. -/
def mwCount {σ α ρ : Type} (label : String) : Mw σ α ρ where
  B := Unit
  ctor := CProg.log label
  handler := fun _ a => HProg.next a

/-- A short-circuiting middleware: its handler returns `r0` without
calling `next`. -/
def mwShort {σ α ρ : Type} (r0 : ρ) : Mw σ α ρ where
  B := Unit
  ctor := CProg.pure ()
  handler := fun _ _ => HProg.pure r0

/-- A middleware whose constructor throws. -/
def mwThrow {σ α ρ : Type} (msg : String) : Mw σ α ρ where
  B := Unit
  ctor := CProg.fail msg
  handler := fun _ a => HProg.next a

/-- A middleware whose constructor calls `api.dispatch` synchronously but
catches the resulting error and logs `caught`; its handler forwards. -/
def mwCatch {σ α ρ : Type} (a0 : α) : Mw σ α ρ where
  B := Unit
  ctor := CProg.tryCatch
    (CProg.bind (CProg.disp a0) fun _ => CProg.pure ())
    (fun _ => CProg.log "caught")
  handler := fun _ a => HProg.next a

/-! ### Basic combinator lemmas -/

theorem mbind_ok {σ α ρ : Type} {β : Type u} {γ : Type v}
    {m : M σ α ρ β} {f : β → M σ α ρ γ} {s s1 : St σ α ρ} {b : β}
    (h : m s = (Except.ok b, s1)) : mbind m f s = f b s1 := by
  simp [mbind, h]

theorem mbind_err {σ α ρ : Type} {β : Type u} {γ : Type v}
    {m : M σ α ρ β} {f : β → M σ α ρ γ} {s s1 : St σ α ρ} {e : Err}
    (h : m s = (Except.error e, s1)) : mbind m f s = (Except.error e, s1) := by
  simp [mbind, h]

theorem mcatch_ok {σ α ρ : Type} {β : Type u}
    {m : M σ α ρ β} {f : Err → M σ α ρ β} {s s1 : St σ α ρ} {b : β}
    (h : m s = (Except.ok b, s1)) : mcatch m f s = (Except.ok b, s1) := by
  simp [mcatch, h]

theorem mcatch_err {σ α ρ : Type} {β : Type u}
    {m : M σ α ρ β} {f : Err → M σ α ρ β} {s s1 : St σ α ρ} {e : Err}
    (h : m s = (Except.error e, s1)) : mcatch m f s = f e s1 := by
  simp [mcatch, h]

theorem mbind_eq_ok {σ α ρ : Type} {β : Type u} {γ : Type v}
    {m : M σ α ρ β} {f : β → M σ α ρ γ} {s s2 : St σ α ρ} {c : γ}
    (h : mbind m f s = (Except.ok c, s2)) :
    ∃ b s1, m s = (Except.ok b, s1) ∧ f b s1 = (Except.ok c, s2) := by
  rcases hm : m s with ⟨r, s1⟩
  cases r with
  | ok b => exact ⟨b, s1, rfl, by rwa [mbind_ok hm] at h⟩
  | error e => rw [mbind_err hm] at h; simp at h

/-- A computation keeps the indirection cell untouched. Only the enhancer
itself writes the cell; middleware programs and the base store cannot. -/
def KeepsCell {σ α ρ : Type} {β : Type u} (m : M σ α ρ β) : Prop :=
  ∀ s, (m s).2.cell = s.cell

theorem keepsCell_mret {σ α ρ : Type} {β : Type u} (b : β) :
    KeepsCell (σ := σ) (α := α) (ρ := ρ) (mret b) := fun _ => rfl

theorem keepsCell_mlog {σ α ρ : Type} (m : String) :
    KeepsCell (σ := σ) (α := α) (ρ := ρ) (mlog m) := fun _ => rfl

theorem keepsCell_mthrow {σ α ρ : Type} {β : Type u} (e : Err) :
    KeepsCell (σ := σ) (α := α) (ρ := ρ) (β := β) (mthrow e) := fun _ => rfl

theorem keepsCell_mbind {σ α ρ : Type} {β : Type u} {γ : Type v}
    {m : M σ α ρ β} {f : β → M σ α ρ γ}
    (hm : KeepsCell m) (hf : ∀ b, KeepsCell (f b)) : KeepsCell (mbind m f) := by
  intro s
  have h1 := hm s
  rcases hp : m s with ⟨r, s1⟩
  rw [hp] at h1
  cases r with
  | error e => rw [mbind_err hp]; exact h1
  | ok b => rw [mbind_ok hp]; exact (hf b s1).trans h1

theorem keepsCell_mcatch {σ α ρ : Type} {β : Type u}
    {m : M σ α ρ β} {f : Err → M σ α ρ β}
    (hm : KeepsCell m) (hf : ∀ e, KeepsCell (f e)) : KeepsCell (mcatch m f) := by
  intro s
  have h1 := hm s
  rcases hp : m s with ⟨r, s1⟩
  rw [hp] at h1
  cases r with
  | ok b => rw [mcatch_ok hp]; exact h1
  | error e => rw [mcatch_err hp]; exact (hf e s1).trans h1

/-! ### Cell preservation by the interpreters -/

theorem keepsCell_runH {σ α ρ : Type} {api : MwAPI σ α ρ} {nx : α → M σ α ρ ρ}
    (hg : KeepsCell api.getState)
    (hd : ∀ a, KeepsCell (api.dispatch a))
    (hn : ∀ a, KeepsCell (nx a)) :
    ∀ {β : Type} (p : HProg σ α ρ β), KeepsCell (runH api nx p) := by
  intro β p
  induction p with
  | pure b => exact keepsCell_mret b
  | bind p f ihp ihf => exact keepsCell_mbind ihp ihf
  | getSt => exact hg
  | disp a => exact hd a
  | next a => exact hn a
  | log m => exact keepsCell_mlog m
  | fail m => exact keepsCell_mthrow _
  | tryCatch p h ihp ihh => exact keepsCell_mcatch ihp ihh

theorem keepsCell_runC {σ α ρ : Type} {api : MwAPI σ α ρ}
    (hg : KeepsCell api.getState)
    (hd : ∀ a, KeepsCell (api.dispatch a)) :
    ∀ {β : Type} (p : CProg σ α ρ β), KeepsCell (runC api p) := by
  intro β p
  induction p with
  | pure b => exact keepsCell_mret b
  | bind p f ihp ihf => exact keepsCell_mbind ihp ihf
  | getSt => exact hg
  | disp a => exact hd a
  | log m => exact keepsCell_mlog m
  | fail m => exact keepsCell_mthrow _
  | tryCatch p h ihp ihh => exact keepsCell_mcatch ihp ihh

theorem keepsCell_composed {σ α ρ : Type} (api : MwAPI σ α ρ) {d : α → M σ α ρ ρ}
    (hg : KeepsCell api.getState)
    (hd : ∀ a, KeepsCell (api.dispatch a))
    (hb : ∀ a, KeepsCell (d a)) :
    ∀ (hs : List (α → HProg σ α ρ ρ)) (a : α),
      KeepsCell (compose (hs.map (toTransform api)) d a) := by
  intro hs
  induction hs with
  | nil => exact hb
  | cons h t ih => exact fun a => keepsCell_runH hg hd ih (h a)

theorem keepsCell_apiD {σ α ρ : Type} {g : M σ α ρ σ} {d : α → M σ α ρ ρ}
    (hg : KeepsCell g) (hd : ∀ a, KeepsCell (d a)) :
    ∀ (fuel : Nat) (a : α), KeepsCell (apiD g d fuel a) := by
  intro fuel
  induction fuel with
  | zero =>
      intro a s
      cases hc : s.cell with
      | none => simp [apiD, hc]
      | some hs => simp [apiD, hc]
  | succ n ih =>
      intro a s
      cases hc : s.cell with
      | none => simp [apiD, hc]
      | some hs =>
          have := keepsCell_composed ⟨g, apiD g d n⟩ hg ih hd hs a s
          simpa [apiD, hc] using this.trans hc

theorem keepsCell_runChain {σ α ρ : Type} (api : MwAPI σ α ρ)
    (hg : KeepsCell api.getState)
    (hd : ∀ a, KeepsCell (api.dispatch a)) :
    ∀ (mws : List (Mw σ α ρ)), KeepsCell (runChain api mws) := by
  intro mws
  induction mws with
  | nil => exact keepsCell_mret []
  | cons mw rest ih =>
      exact keepsCell_mbind (keepsCell_runC hg hd mw.ctor)
        fun b => keepsCell_mbind ih fun hs => keepsCell_mret _

/-! ### Structural lemmas about the chain and the composer -/

theorem runChain_append_err {σ α ρ : Type} (api : MwAPI σ α ρ)
    (xs : List (Mw σ α ρ)) {ys : List (Mw σ α ρ)} {s s1 s2 : St σ α ρ}
    {hs : List (α → HProg σ α ρ ρ)} {e : Err}
    (h1 : runChain api xs s = (Except.ok hs, s1))
    (h2 : runChain api ys s1 = (Except.error e, s2)) :
    runChain api (xs ++ ys) s = (Except.error e, s2) := by
  induction xs generalizing s hs with
  | nil =>
      simp only [runChain, mret, Prod.mk.injEq, Except.ok.injEq] at h1
      obtain ⟨rfl, rfl⟩ := h1
      simpa using h2
  | cons mw rest ih =>
      simp only [runChain] at h1
      obtain ⟨b, sA, hpA, h1⟩ := mbind_eq_ok h1
      obtain ⟨hs2, sB, hpB, h1⟩ := mbind_eq_ok h1
      simp only [mret, Prod.mk.injEq, Except.ok.injEq] at h1
      obtain ⟨rfl, rfl⟩ := h1
      show runChain api (mw :: (rest ++ ys)) s = (Except.error e, s2)
      rw [runChain, mbind_ok hpA, mbind_err (ih hpB)]

theorem runChain_count {σ α ρ : Type} (api : MwAPI σ α ρ) :
    ∀ (labels : List String) (s : St σ α ρ),
      runChain api (labels.map mwCount) s
        = (Except.ok (labels.map fun _ => fun a => HProg.next a),
           ⟨s.state, s.log ++ labels, s.cell⟩) := by
  intro labels
  induction labels with
  | nil => intro s; simp [runChain, mret]
  | cons l ls ih =>
      intro s
      have hc : runC api (mwCount (σ := σ) (α := α) (ρ := ρ) l).ctor s
          = (Except.ok (), ⟨s.state, s.log ++ [l], s.cell⟩) := rfl
      show runChain api (mwCount l :: ls.map mwCount) s = _
      rw [runChain, mbind_ok hc, mbind_ok (ih _)]
      simp [mret, mwCount, List.append_assoc]

theorem compose_append {T : Type u} (xs : List (T → T)) (f : T → T) (x : T) :
    compose (xs ++ [f]) x = compose xs (f x) := by
  induction xs with
  | nil => rfl
  | cons g gs ih => simp [compose, ih]

/-- Inversion of a successful run of the enhancer: the chain of constructors
succeeded, the returned container is the base container with only
`dispatch` replaced by the composed chain, and the final state is the chain
state with the cell repointed to the handlers. -/
theorem applyMiddleware_ok {σ α ρ : Type} {fuel : Nat} {mws : List (Mw σ α ρ)}
    {store : Store σ α ρ} {s s2 : St σ α ρ} {en : Store σ α ρ}
    (h : applyMiddleware fuel mws store s = (Except.ok en, s2)) :
    ∃ hs s1, runChain (mkAPI store fuel) mws { s with cell := none } = (Except.ok hs, s1)
      ∧ en = { store with
          dispatch := compose (hs.map (toTransform (mkAPI store fuel))) store.dispatch }
      ∧ s2 = { s1 with cell := some hs } := by
  rcases hp : runChain (mkAPI store fuel) mws { s with cell := none } with ⟨r, s1⟩
  cases r with
  | error e => rw [applyMiddleware, hp] at h; simp at h
  | ok hs =>
      rw [applyMiddleware, hp] at h
      simp only [Prod.mk.injEq, Except.ok.injEq] at h
      exact ⟨hs, s1, rfl, h.1.symm, h.2.symm⟩

/-! ### Concrete instances used by the witnesses -/

/-- Extract the value of a successful result, with a fallback. -/
def okOr {β : Type u} (r : Except Err β) (dflt : β) : β :=
  match r with
  | Except.ok b => b
  | Except.error _ => dflt

/-- A concrete base store over natural numbers: the transition function
adds the action to the state; dispatch returns the action. -/
def addStore : Store Nat Nat Nat := createStore fun st a => st + a

/-- A concrete initial machine state. -/
def st0 : St Nat Nat Nat := ⟨0, [], none⟩

/-- Result of enhancing `addStore` with one tracing middleware. -/
def resTrace : Except Err (Store Nat Nat Nat) × St Nat Nat Nat :=
  applyMiddleware 1 [mwTrace "A-before" "A-after"] addStore st0

/-- The enhanced container of `resTrace`. -/
def enTrace : Store Nat Nat Nat := okOr resTrace.1 addStore

/-- The machine state after `resTrace`. -/
def stTrace : St Nat Nat Nat := resTrace.2

/-- Result of enhancing `addStore` with one short-circuiting middleware. -/
def resShort : Except Err (Store Nat Nat Nat) × St Nat Nat Nat :=
  applyMiddleware 1 [mwShort 99] addStore st0

/-- The enhanced container of `resShort`. -/
def enShort : Store Nat Nat Nat := okOr resShort.1 addStore

/-- The machine state after `resShort`. -/
def stShort : St Nat Nat Nat := resShort.2

/-! ### The claims -/

/-- Claim C1: if any middleware constructor dispatches through the api view
synchronously during chain building (its body is `api.dispatch(a0)`
followed by anything), the call hits the guard: provided the base store
leaves the indirection cell alone and the constructors before it complete,
the enhancer stops there and returns the distinguishable `Err.guard` error
— no container is returned. -/
theorem guard_blocks_ctor_dispatch {σ α ρ : Type} (fuel : Nat)
    (pre post : List (Mw σ α ρ)) (B : Type) (a0 : α)
    (k : ρ → CProg σ α ρ B) (hnd : B → α → HProg σ α ρ ρ)
    (store : Store σ α ρ) (s s1 : St σ α ρ) (hs : List (α → HProg σ α ρ ρ))
    (hg : KeepsCell store.getState)
    (hd : ∀ a, KeepsCell (store.dispatch a))
    (hpre : runChain (mkAPI store fuel) pre { s with cell := none } = (Except.ok hs, s1)) :
    applyMiddleware fuel (pre ++ Mw.mk B (CProg.bind (CProg.disp a0) k) hnd :: post) store s
      = (Except.error Err.guard, s1) := by
  have hcell : s1.cell = none := by
    have hk := keepsCell_runChain (mkAPI store fuel) hg
      (fun a => keepsCell_apiD hg hd fuel a) pre { s with cell := none }
    rw [hpre] at hk
    exact hk
  have hdisp : runC (mkAPI store fuel) (CProg.disp a0) s1 = (Except.error Err.guard, s1) := by
    cases fuel <;> simp [runC, mkAPI, apiD, hcell]
  have hctor : runC (mkAPI store fuel) (CProg.bind (CProg.disp a0) k) s1
      = (Except.error Err.guard, s1) := by
    show mbind (runC (mkAPI store fuel) (CProg.disp a0)) _ s1 = _
    rw [mbind_err hdisp]
  have herr : runChain (mkAPI store fuel)
      (Mw.mk B (CProg.bind (CProg.disp a0) k) hnd :: post) s1
      = (Except.error Err.guard, s1) := by
    rw [runChain, mbind_err hctor]
  have hall := runChain_append_err (mkAPI store fuel) pre hpre herr
  rw [applyMiddleware, hall]

/-- Witness for C1: a single middleware whose constructor dispatches the
action 7; construction of the enhanced add-store fails with the guard
error and no container. -/
theorem guard_blocks_ctor_dispatch_witness :
    KeepsCell addStore.getState
    ∧ (∀ a, KeepsCell (addStore.dispatch a))
    ∧ runChain (mkAPI addStore 1) [] { st0 with cell := none }
        = (Except.ok [], { st0 with cell := none })
    ∧ applyMiddleware 1
        [Mw.mk Unit (CProg.bind (CProg.disp 7) fun _ => CProg.pure ()) fun _ a => HProg.next a]
        addStore st0
      = (Except.error Err.guard, { st0 with cell := none }) :=
  ⟨fun _ => rfl, fun _ _ => rfl, rfl,
   guard_blocks_ctor_dispatch 1 [] [] Unit 7 (fun _ => CProg.pure ())
     (fun _ a => HProg.next a) addStore st0 { st0 with cell := none } []
     (fun _ => rfl) (fun _ _ => rfl) rfl⟩

/-- Claim C2: with zero middlewares the enhanced constructor succeeds and
returns the base container itself — its dispatch is the very base dispatch,
so return values and state transitions coincide with the base container for
every sequence of dispatched actions; the cell is repointed to the empty
chain. -/
theorem zero_middleware_identity {σ α ρ : Type} (fuel : Nat)
    (store : Store σ α ρ) (s : St σ α ρ) :
    applyMiddleware fuel [] store s = (Except.ok store, ⟨s.state, s.log, some []⟩) := rfl

/-- Claim C3: dispatching one action through the chain of tracing
middlewares A, B, C runs the handlers in exactly the supplied order, each
invoking `next` before returning: the log gains
A-before, B-before, C-before, C-after, B-after, A-after, the transition
function is applied once, and the action is returned. -/
theorem order_trace_abc {σ α : Type} (red : σ → α → σ) (a : α)
    (s : St σ α α) (fuel : Nat) :
    ∃ hs, runEnhanced fuel
        [mwTrace "A-before" "A-after", mwTrace "B-before" "B-after",
         mwTrace "C-before" "C-after"]
        (createStore red) a s
      = (Except.ok a,
         ⟨red s.state a,
          s.log ++ ["A-before", "B-before", "C-before", "C-after", "B-after", "A-after"],
          some hs⟩) := by
  refine ⟨[(mwTrace "A-before" "A-after").handler (), (mwTrace "B-before" "B-after").handler (),
    (mwTrace "C-before" "C-after").handler ()], ?_⟩
  have hlog : s.log ++ ["A-before", "B-before", "C-before", "C-after", "B-after", "A-after"]
      = (((((s.log ++ ["A-before"]) ++ ["B-before"]) ++ ["C-before"]) ++ ["C-after"])
          ++ ["B-after"]) ++ ["A-after"] := by simp
  rw [hlog]
  rfl

/-- Claim C4: when the enhanced constructor returns, the indirection cell
has been repointed to the instantiated handler chain — it no longer
resolves to the guard — the returned dispatch is the composed chain, and in
any later state carrying that cell (in particular during a re-entrant call
from inside a handler) a call through the api view runs the full composed
chain from the first handler. -/
theorem cell_repointed_before_return {σ α ρ : Type} (fuel : Nat)
    (mws : List (Mw σ α ρ)) (store : Store σ α ρ) (s s2 : St σ α ρ) (en : Store σ α ρ)
    (h : applyMiddleware fuel mws store s = (Except.ok en, s2)) :
    ∃ hs, s2.cell = some hs
      ∧ en.dispatch = compose (hs.map (toTransform (mkAPI store fuel))) store.dispatch
      ∧ ∀ (n : Nat) (a : α) (s3 : St σ α ρ), s3.cell = some hs →
          apiD store.getState store.dispatch (n + 1) a s3
            = compose (hs.map (toTransform (mkAPI store n))) store.dispatch a s3 := by
  obtain ⟨hs, s1, _, hen, hs2⟩ := applyMiddleware_ok h
  refine ⟨hs, by rw [hs2], by rw [hen], ?_⟩
  intro n a s3 hc
  simp [apiD, hc, mkAPI]

/-- Witness for C4: enhancing the add-store with one tracing middleware;
the cell of the final state is bound and api dispatch at that state runs the
composed chain. -/
theorem cell_repointed_before_return_witness :
    applyMiddleware 1 [mwTrace "A-before" "A-after"] addStore st0 = (Except.ok enTrace, stTrace)
    ∧ ∃ hs : List (Nat → HProg Nat Nat Nat Nat), stTrace.cell = some hs
      ∧ enTrace.dispatch = compose (hs.map (toTransform (mkAPI addStore 1))) addStore.dispatch
      ∧ ∀ (n : Nat) (a : Nat) (s3 : St Nat Nat Nat), s3.cell = some hs →
          apiD addStore.getState addStore.dispatch (n + 1) a s3
            = compose (hs.map (toTransform (mkAPI addStore n))) addStore.dispatch a s3 := by
  have h : applyMiddleware 1 [mwTrace "A-before" "A-after"] addStore st0
      = (Except.ok enTrace, stTrace) := rfl
  exact ⟨h, cell_repointed_before_return 1 [mwTrace "A-before" "A-after"] addStore st0
    stTrace enTrace h⟩

/-- Claim C5: construction instantiates every middleware constructor
exactly once, in the caller-supplied order — for an arbitrary list of
labelled counting middlewares the log gains exactly the labels, in order —
and the chain holds exactly one handler per middleware; every constructor
is run against the single api view `mkAPI store fuel`. -/
theorem ctors_once_in_order {σ α ρ : Type} (labels : List String) (fuel : Nat)
    (store : Store σ α ρ) (s : St σ α ρ) :
    applyMiddleware fuel (labels.map mwCount) store s
      = (Except.ok { store with
            dispatch := compose
              ((labels.map fun _ => fun a => HProg.next a).map (toTransform (mkAPI store fuel)))
              store.dispatch },
         ⟨s.state, s.log ++ labels, some (labels.map fun _ => fun a => HProg.next a)⟩) := by
  rw [applyMiddleware, runChain_count]

/-- Claim C6: a middleware whose handler returns `r0` without calling its
`next` short-circuits that dispatch call: whatever (arbitrary) middlewares
follow it in the chain, the enhanced dispatch returns `r0` and leaves the
machine state completely unchanged — no later handler runs and the base
dispatch (hence the transition function) never executes. -/
theorem short_circuit_skips_rest {σ α ρ : Type} (fuel : Nat) (r0 : ρ)
    (post : List (Mw σ α ρ)) (store : Store σ α ρ) (s s2 : St σ α ρ) (en : Store σ α ρ)
    (h : applyMiddleware fuel (mwShort r0 :: post) store s = (Except.ok en, s2)) :
    ∀ (a : α) (s3 : St σ α ρ), en.dispatch a s3 = (Except.ok r0, s3) := by
  obtain ⟨hs, s1, hchain, hen, _⟩ := applyMiddleware_ok h
  rw [runChain] at hchain
  obtain ⟨b, sA, hA, hchain⟩ := mbind_eq_ok hchain
  obtain ⟨hs2, sB, hB, hchain⟩ := mbind_eq_ok hchain
  simp only [mret, Prod.mk.injEq, Except.ok.injEq] at hchain
  obtain ⟨rfl, rfl⟩ := hchain
  intro a s3
  rw [hen]
  rfl

/-- Witness for C6: the add-store enhanced with a short-circuiting
middleware returning 99; dispatching 5 returns 99 and the state (log and
counter) is untouched. -/
theorem short_circuit_skips_rest_witness :
    applyMiddleware 1 [mwShort 99] addStore st0 = (Except.ok enShort, stShort)
    ∧ enShort.dispatch 5 st0 = (Except.ok 99, st0) := by
  have h : applyMiddleware 1 [mwShort 99] addStore st0 = (Except.ok enShort, stShort) := rfl
  exact ⟨h, short_circuit_skips_rest 1 99 [] addStore st0 stShort enShort h 5 st0⟩

/-- Claim C7: on success the returned container is the base container with
every field unchanged except `dispatch`, which is replaced by the composed
chain; in particular its `getState` is the `getState` of the base container. -/
theorem only_dispatch_replaced {σ α ρ : Type} (fuel : Nat) (mws : List (Mw σ α ρ))
    (store : Store σ α ρ) (s s2 : St σ α ρ) (en : Store σ α ρ)
    (h : applyMiddleware fuel mws store s = (Except.ok en, s2)) :
    en.getState = store.getState
      ∧ ∃ hs : List (α → HProg σ α ρ ρ), en = { store with
          dispatch := compose (hs.map (toTransform (mkAPI store fuel))) store.dispatch } := by
  obtain ⟨hs, s1, _, hen, _⟩ := applyMiddleware_ok h
  exact ⟨by rw [hen], hs, hen⟩

/-- Witness for C7: the container from `resTrace` keeps the base
`getState` and differs from the base store only in `dispatch`. -/
theorem only_dispatch_replaced_witness :
    applyMiddleware 1 [mwTrace "A-before" "A-after"] addStore st0 = (Except.ok enTrace, stTrace)
    ∧ (enTrace.getState = addStore.getState
      ∧ ∃ hs : List (Nat → HProg Nat Nat Nat Nat), enTrace = { addStore with
          dispatch := compose (hs.map (toTransform (mkAPI addStore 1))) addStore.dispatch }) := by
  have h : applyMiddleware 1 [mwTrace "A-before" "A-after"] addStore st0
      = (Except.ok enTrace, stTrace) := rfl
  exact ⟨h, only_dispatch_replaced 1 [mwTrace "A-before" "A-after"] addStore st0
    stTrace enTrace h⟩

/-- Claim C8: a middleware constructor that throws aborts construction at
that point: provided the constructors before it complete, the error
propagates unmodified out of the enhancer (no container is returned) and
the final state is exactly the state reached before the throw — the
(arbitrary) constructors after it are never invoked. -/
theorem ctor_error_propagates {σ α ρ : Type} (fuel : Nat)
    (pre post : List (Mw σ α ρ)) (msg : String)
    (store : Store σ α ρ) (s s1 : St σ α ρ) (hs : List (α → HProg σ α ρ ρ))
    (hpre : runChain (mkAPI store fuel) pre { s with cell := none } = (Except.ok hs, s1)) :
    applyMiddleware fuel (pre ++ mwThrow msg :: post) store s
      = (Except.error (Err.mwErr msg), s1) := by
  have hctor : runC (mkAPI store fuel) (mwThrow (σ := σ) (α := α) (ρ := ρ) msg).ctor s1
      = (Except.error (Err.mwErr msg), s1) := rfl
  have herr : runChain (mkAPI store fuel) (mwThrow (σ := σ) (α := α) (ρ := ρ) msg :: post) s1
      = (Except.error (Err.mwErr msg), s1) := by
    rw [runChain, mbind_err hctor]
  have hall := runChain_append_err (mkAPI store fuel) pre hpre herr
  rw [applyMiddleware, hall]

/-- Witness for C8: a single throwing constructor; enhancing the add-store
fails with exactly the thrown error. -/
theorem ctor_error_propagates_witness :
    runChain (mkAPI addStore 1) [] { st0 with cell := none }
      = (Except.ok [], { st0 with cell := none })
    ∧ applyMiddleware 1 [mwThrow "boom"] addStore st0
      = (Except.error (Err.mwErr "boom"), { st0 with cell := none }) := by
  have h : runChain (mkAPI addStore 1) [] { st0 with cell := none }
      = (Except.ok [], { st0 with cell := none }) := rfl
  exact ⟨h, ctor_error_propagates 1 [] [] "boom" addStore st0 { st0 with cell := none } [] h⟩

/-- Claim C9: the guard error is raised inside the guard function itself
and leaves the machine state untouched (first conjunct), so the failure is
local to that dispatch call: a constructor that dispatches but catches the
error merely loses that call — construction carries on, runs every
remaining constructor in order, and completes successfully (second
conjunct). -/
theorem guard_error_is_local {σ α ρ : Type} (fuel : Nat) (a0 : α)
    (labels : List String) (store : Store σ α ρ) (s : St σ α ρ) :
    (∀ s3 : St σ α ρ, s3.cell = none →
        apiD store.getState store.dispatch fuel a0 s3 = (Except.error Err.guard, s3))
    ∧ ∃ (en : Store σ α ρ) (hs : List (α → HProg σ α ρ ρ)),
        applyMiddleware fuel (mwCatch a0 :: labels.map mwCount) store s
          = (Except.ok en, ⟨s.state, s.log ++ ("caught" :: labels), some hs⟩) := by
  constructor
  · intro s3 hc
    cases fuel <;> simp [apiD, hc]
  · have hcatch : runC (mkAPI store fuel) (mwCatch (σ := σ) (ρ := ρ) a0).ctor
        { s with cell := none }
        = (Except.ok (), ⟨s.state, s.log ++ ["caught"], none⟩) := by
      cases fuel <;> rfl
    have hchain : runChain (mkAPI store fuel) (mwCatch a0 :: labels.map mwCount)
        { s with cell := none }
        = (Except.ok ((fun a => HProg.next a) :: labels.map fun _ => fun a => HProg.next a),
           ⟨s.state, (s.log ++ ["caught"]) ++ labels, none⟩) := by
      rw [runChain, mbind_ok hcatch, mbind_ok (runChain_count _ labels _)]
      rfl
    have hlog : s.log ++ ("caught" :: labels) = (s.log ++ ["caught"]) ++ labels := by simp
    exact ⟨_, _, by rw [hlog, applyMiddleware, hchain]⟩

/-- Witness for C9: the guard fires at the concrete unbound state `st0`
without changing it, and enhancing the add-store with a catching
constructor followed by two counting middlewares succeeds with the full
log. -/
theorem guard_error_is_local_witness :
    (st0.cell = none
      ∧ apiD addStore.getState addStore.dispatch 1 7 st0 = (Except.error Err.guard, st0))
    ∧ ∃ (en : Store Nat Nat Nat) (hs : List (Nat → HProg Nat Nat Nat Nat)),
        applyMiddleware 1 (mwCatch 7 :: ["L1", "L2"].map mwCount) addStore st0
          = (Except.ok en, ⟨0, ["caught", "L1", "L2"], some hs⟩) :=
  ⟨⟨rfl, (guard_error_is_local 1 7 ["L1", "L2"] addStore st0).1 st0 rfl⟩,
   (guard_error_is_local 1 7 ["L1", "L2"] addStore st0).2⟩

/-- Claim C10: the enhancer does not alter the base container value: the
returned container is a new record sharing the base fields with only
`dispatch` replaced by the composed chain; the innermost `next` of that
chain is the own dispatch of the base container — the last handler receives
`store.dispatch` itself, and with no middleware the composed dispatch is
the base dispatch. -/
theorem base_store_untouched {σ α ρ : Type} (fuel : Nat) (mws : List (Mw σ α ρ))
    (store : Store σ α ρ) (s s2 : St σ α ρ) (en : Store σ α ρ)
    (h : applyMiddleware fuel mws store s = (Except.ok en, s2)) :
    ∃ hs : List (α → HProg σ α ρ ρ),
      en = { store with
        dispatch := compose (hs.map (toTransform (mkAPI store fuel))) store.dispatch }
      ∧ (∀ (init : List (α → HProg σ α ρ ρ)) (last : α → HProg σ α ρ ρ),
          hs = init ++ [last] →
          en.dispatch = compose (init.map (toTransform (mkAPI store fuel)))
            (toTransform (mkAPI store fuel) last store.dispatch))
      ∧ (mws = [] → en.dispatch = store.dispatch) := by
  obtain ⟨hs, s1, hchain, hen, _⟩ := applyMiddleware_ok h
  refine ⟨hs, hen, ?_, ?_⟩
  · intro init last hsplit
    subst hsplit
    rw [hen]
    show compose ((init ++ [last]).map (toTransform (mkAPI store fuel))) store.dispatch = _
    simp only [List.map_append, List.map_cons, List.map_nil]
    rw [compose_append]
  · intro hnil
    subst hnil
    rw [runChain] at hchain
    simp only [mret, Prod.mk.injEq, Except.ok.injEq] at hchain
    obtain ⟨rfl, rfl⟩ := hchain
    rw [hen]
    rfl

/-- Witness for C10: the container from `resTrace` is the add-store with
only `dispatch` replaced, and the single handler of its chain receives the
base dispatch itself as `next`. -/
theorem base_store_untouched_witness :
    applyMiddleware 1 [mwTrace "A-before" "A-after"] addStore st0 = (Except.ok enTrace, stTrace)
    ∧ ∃ hs : List (Nat → HProg Nat Nat Nat Nat),
        enTrace = { addStore with
          dispatch := compose (hs.map (toTransform (mkAPI addStore 1))) addStore.dispatch }
        ∧ (∀ (init : List (Nat → HProg Nat Nat Nat Nat)) (last : Nat → HProg Nat Nat Nat Nat),
            hs = init ++ [last] →
            enTrace.dispatch = compose (init.map (toTransform (mkAPI addStore 1)))
              (toTransform (mkAPI addStore 1) last addStore.dispatch))
        ∧ ([mwTrace "A-before" "A-after"] = ([] : List (Mw Nat Nat Nat)) →
            enTrace.dispatch = addStore.dispatch) := by
  have h : applyMiddleware 1 [mwTrace "A-before" "A-after"] addStore st0
      = (Except.ok enTrace, stTrace) := rfl
  exact ⟨h, base_store_untouched 1 [mwTrace "A-before" "A-after"] addStore st0
    stTrace enTrace h⟩

end Redux
